import Mathlib

/- Verification of the shared infrastructure of the crypto-intel-github-bot
   repository: the TTL cache with trim-on-overflow, the rate-limited client
   pacing, the scheduled task runner, the webhook dispatcher with HMAC
   signature verification, the bot command grammar and the health
   aggregator, shallowly embedded from the JavaScript sources. -/

namespace CryptoIntelBot

/-! ## JavaScript `Map` semantics

The caches and the task registry are JavaScript `Map`s.  A `Map` is modelled
as an association list in insertion order with unique keys: `set` on an
existing key updates the value in place (keeping the insertion position),
`set` on a fresh key appends at the end, `delete` removes the entry, and
iteration (`keys()`) follows insertion order. -/

/-- Semantics of `Map.prototype.set`: an existing key keeps its insertion
position and gets the new value; a new key is appended at the end. -/
def mapSet {β : Type} (m : List (String × β)) (k : String) (v : β) :
    List (String × β) :=
  if m.any (fun p => p.1 == k) then
    m.map (fun p => if p.1 == k then (k, v) else p)
  else m ++ [(k, v)]

/-- Semantics of `Map.prototype.get`: the value stored at the key, if any. -/
def mapGet {β : Type} (m : List (String × β)) (k : String) : Option β :=
  (m.find? (fun p => p.1 == k)).map (fun p => p.2)

/-- Semantics of `Map.prototype.delete`: the entry at the key is removed. -/
def mapDelete {β : Type} (m : List (String × β)) (k : String) :
    List (String × β) :=
  m.filter (fun p => p.1 != k)

/-! ## TTL cache

Every service holds `this.cache = new Map()` whose entries are
`{ data, timestamp: Date.now() }`.  The accessors `getCachedData` /
`setCachedData` are textually identical across coingecko.js (lines 254 and
266), coindesk.js (lines 235 and 247), arkham-intel.js (lines 341 and
353), the gas estimation service (lines 415 and 427) and the network
monitoring service (lines 494 and 505) except for the trim ceiling and
trim count; the DeFi monitoring service alone has the same
`getCachedData` but a `setCachedData` without any trim.  Time is in
milliseconds (`Date.now()`), modelled as `Int`. -/

/-- A cache entry `{ data, timestamp: Date.now() }`. -/
structure CacheEntry (α : Type) where
  data : α
  timestamp : Int
deriving DecidableEq

/-- A service cache: a JavaScript `Map` from string keys to entries. -/
abbrev Cache (α : Type) : Type := List (String × CacheEntry α)

/-- Model of `getCachedData(key, maxAge)`: a missing entry gives `null`; an entry
with `Date.now() - cached.timestamp > maxAge` is deleted from the map and
gives `null`; otherwise the stored data is returned.  `now` stands for
`Date.now()`; the possibly-updated store is returned alongside the
result. -/
def getCachedData {α : Type} (c : Cache α) (key : String) (maxAge now : Int) :
    Cache α × Option α :=
  match mapGet c key with
  | none => (c, none)
  | some e =>
    if now - e.timestamp > maxAge then (mapDelete c key, none)
    else (c, some e.data)

/-- Model of `setCachedData(key, data)` with trim-on-overflow: store
`{ data, timestamp: now }`, then, if `this.cache.size` exceeds the ceiling,
delete the keys of `Array.from(this.cache.keys()).slice(0, trimCount)` —
the earliest-inserted ones.  The ceiling/trim pairs in the sources are
(100, 20) for coingecko.js and arkham-intel.js and (50, 10) for
coindesk.js. -/
def setCachedDataWith {α : Type} (ceiling trimCount : Nat) (c : Cache α)
    (key : String) (d : α) (now : Int) : Cache α :=
  let c1 := mapSet c key ⟨d, now⟩
  if c1.length > ceiling then
    let oldestKeys := (c1.map (fun p => p.1)).take trimCount
    oldestKeys.foldl (fun acc k => mapDelete acc k) c1
  else c1

/-- The `CoinGeckoService.setCachedData` specialization (coingecko.js line 266): ceiling 100,
trim 20. -/
def CoinGeckoService.setCachedData {α : Type} (c : Cache α) (key : String)
    (d : α) (now : Int) : Cache α :=
  setCachedDataWith 100 20 c key d now

/-- The `CoinDeskService.setCachedData` specialization (coindesk.js line 247): ceiling 50,
trim 10. -/
def CoinDeskService.setCachedData {α : Type} (c : Cache α) (key : String)
    (d : α) (now : Int) : Cache α :=
  setCachedDataWith 50 10 c key d now

/-- The `ArkhamIntelService.setCachedData` specialization (arkham-intel.js line 353): ceiling
100, trim 20. -/
def ArkhamIntelService.setCachedData {α : Type} (c : Cache α) (key : String)
    (d : α) (now : Int) : Cache α :=
  setCachedDataWith 100 20 c key d now

/-- The `GasEstimationService.setCachedData` specialization (gas estimation
service, lines 427 to 437): ceiling 50, trim 10. -/
def GasEstimationService.setCachedData {α : Type} (c : Cache α)
    (key : String) (d : α) (now : Int) : Cache α :=
  setCachedDataWith 50 10 c key d now

/-- The `NetworkMonitoringService.setCachedData` specialization (network
monitoring service, lines 505 to 514): ceiling 100, trim 20. -/
def NetworkMonitoringService.setCachedData {α : Type} (c : Cache α)
    (key : String) (d : α) (now : Int) : Cache α :=
  setCachedDataWith 100 20 c key d now

/-- The `DeFiMonitoringService.setCachedData` variant (defi monitoring service, lines
674 to 679 of the arkham-intel.js bundle): stores the entry and performs no
trim whatsoever. -/
def DeFiMonitoringService.setCachedData {α : Type} (c : Cache α)
    (key : String) (d : α) (now : Int) : Cache α :=
  mapSet c key ⟨d, now⟩

/-! ## Rate-limited client pacing

coindesk.js lines 51 to 60, coingecko.js lines 51 to 60 and
arkham-intel.js lines 66 to 74 share the identical pacing preamble of
`makeRequest`: read `now = Date.now()`, compute `timeSinceLastRequest`,
sleep for `rateLimitDelay - timeSinceLastRequest` when the gap is too
small, then record `this.lastRequestTime = Date.now()` and issue the
request. -/

/-- Pacing state of one client: `rateLimitDelay` (the configured minimum
interval, e.g. 1000 ms for coindesk.js and key-less coingecko.js) and
`lastRequestTime` (initially 0). -/
structure ClientState where
  rateLimitDelay : Int
  lastRequestTime : Int
deriving DecidableEq

/-- The pacing part of `makeRequest`, entered at instant `now`: if less
than `rateLimitDelay` has elapsed since `lastRequestTime`, sleep exactly
for the difference; then record the current instant as `lastRequestTime`
and issue the outbound request.  The returned `Int` is the instant the
outbound request is issued, assuming the sleep wakes on time and the
running code takes no measurable time itself. -/
def makeRequestAt (s : ClientState) (now : Int) : ClientState × Int :=
  let timeSinceLastRequest := now - s.lastRequestTime
  if timeSinceLastRequest < s.rateLimitDelay then
    let issueAt := now + (s.rateLimitDelay - timeSinceLastRequest)
    ({ s with lastRequestTime := issueAt }, issueAt)
  else
    ({ s with lastRequestTime := now }, now)

/-! ## Scheduled task runner

`ScheduledTasks` (the scheduler module bundled in arkham-intel.js, lines
372 to 519) owns `this.tasks = new Map()` and `this.isRunning = false`.
`addTask` installs a node-cron task created with
`cron.schedule(schedule, wrapped, { scheduled: this.isRunning })`; with
node-cron 3.x, `scheduled: false` creates the task stopped, and nothing in
the repository ever calls `task.start()` afterwards. -/

namespace ScheduledTasks

/-- A node-cron task handle as configured by `addTask`: its cron expression
and whether its timer is active (the `scheduled` option). -/
structure CronTask where
  schedule : String
  active : Bool
deriving DecidableEq

/-- Runner state: the registry `this.tasks` and `this.isRunning`. -/
structure State where
  tasks : List (String × CronTask)
  isRunning : Bool
deriving DecidableEq

/-- The freshly constructed runner (constructor, line 373): empty registry,
not running. -/
def initial : State := ⟨[], false⟩

/-- Model of `addTask(name, schedule, fn)` (line 465): stop and replace any existing
task of the same name, then install a cron task created with
`{ scheduled: this.isRunning }`. -/
def addTask (s : State) (name schedule : String) : State :=
  { s with tasks := mapSet s.tasks name ⟨schedule, s.isRunning⟩ }

/-- Model of `start()` (line 378): a running runner is left alone; otherwise the
five tasks are registered through `addTask` and only afterwards is
`isRunning` set to `true`.  The `defi-monitoring` cron string interpolates
`config.monitoring.updateIntervalMinutes`. -/
def start (s : State) (updateIntervalMinutes : Nat) : State :=
  if s.isRunning then s
  else
    let s1 := addTask s "gas-monitoring" "*/5 * * * *"
    let s2 := addTask s1 "market-data" "*/15 * * * *"
    let s3 := addTask s2 "defi-monitoring"
      ("*/" ++ toString updateIntervalMinutes ++ " * * * *")
    let s4 := addTask s3 "network-monitoring" "0 * * * *"
    let s5 := addTask s4 "health-check" "*/10 * * * *"
    { s5 with isRunning := true }

/-- Model of `stop()` (line 447): a stopped runner is left alone; otherwise every
timer is stopped, the registry is cleared and `isRunning` becomes
`false`. -/
def stop (s : State) : State :=
  if s.isRunning then { tasks := [], isRunning := false } else s

/-- The report logged by one firing of the wrapper that `addTask` installs
around a task body (lines 471 to 482): the task name, whether the body
threw, and the elapsed duration in milliseconds. -/
structure FiringLog where
  name : String
  failed : Bool
  duration : Int
deriving DecidableEq

/-- One firing of a scheduled task (the async wrapper of lines 471 to 482):
record the start time, run the body, and on success log via
`logger.performance`, on a thrown exception log via `logger.error` with
the elapsed duration — the `catch` swallows the exception, and the wrapper
touches neither `this.tasks` nor `this.isRunning`.  `outcome` is the body
behaviour (`.ok` for normal return, `.error msg` for a throw); `t0` and
`t1` are `Date.now()` at start and at completion. -/
def fire (s : State) (name : String) (outcome : Except String Unit)
    (t0 t1 : Int) : State × FiringLog :=
  match outcome with
  | .ok _ => (s, ⟨name, false, t1 - t0⟩)
  | .error _ => (s, ⟨name, true, t1 - t0⟩)

/-- Sequential firings of several tasks, each given by its name, its body
outcome and its start/completion instants.  A failing firing does not
short-circuit the remaining ones. -/
def fireAll (s : State) :
    List (String × Except String Unit × Int × Int) → State × List FiringLog
  | [] => (s, [])
  | (n, oc, t0, t1) :: rest =>
    let p := fire s n oc t0 t1
    let q := fireAll p.1 rest
    (q.1, p.2 :: q.2)

end ScheduledTasks

/-! ## Health aggregation

`ApiServices.getOverallStatus` (services/index.js lines 19 to 59) loops
over the six registered services, awaits `service.healthCheck()` when the
method exists, records `{status: 'unknown'}` otherwise, converts a thrown
exception into `{status: 'error', error: message}` in the `catch` arm, and
sets `overall` to `degraded` exactly when some recorded status is
`error`. -/

/-- The observed behaviour of awaiting one service's `healthCheck()`:
either a returned status object (only its `status` string matters here) or
a thrown exception carrying its message. -/
inductive ProbeResult where
  | ok (status : String)
  | throws (msg : String)
deriving DecidableEq

/-- The `{status, error}` entry recorded per service. -/
structure ServiceEntry where
  status : String
  error : Option String
deriving DecidableEq

/-- The aggregate produced by `getOverallStatus` (the timestamp field is
omitted). -/
structure OverallStatus where
  services : List (String × ServiceEntry)
  overall : String
deriving DecidableEq

/-- The `for (const [name, service] of Object.entries(services))` loop of
`getOverallStatus`: per service the probe result is recorded (`none`
models a service without a `healthCheck` method), and `hasErrors` is set
when the recorded status is `error` — which happens when the probe
reported `error` or threw. -/
def getOverallStatusLoop :
    List (String × Option ProbeResult) → List (String × ServiceEntry) × Bool
  | [] => ([], false)
  | (name, probe) :: rest =>
    let e : ServiceEntry × Bool :=
      match probe with
      | some (.ok st) => (⟨st, none⟩, st == "error")
      | some (.throws m) => (⟨"error", some m⟩, true)
      | none => (⟨"unknown", none⟩, false)
    let r := getOverallStatusLoop rest
    ((name, e.1) :: r.1, e.2 || r.2)

/-- Model of `ApiServices.getOverallStatus` (lines 19 to 59): run the loop, then
`overall = hasErrors ? 'degraded' : 'healthy'`. -/
def getOverallStatus (services : List (String × Option ProbeResult)) :
    OverallStatus :=
  let r := getOverallStatusLoop services
  ⟨r.1, if r.2 then "degraded" else "healthy"⟩

/-- The entry `getOverallStatus` records for one probe behaviour
(characterization used by the theorems). -/
def probeEntry : Option ProbeResult → ServiceEntry
  | some (.ok st) => ⟨st, none⟩
  | some (.throws m) => ⟨"error", some m⟩
  | none => ⟨"unknown", none⟩

/-- Whether one probe behaviour makes the aggregate degraded. -/
def probeBad : Option ProbeResult → Bool
  | some (.ok st) => st == "error"
  | some (.throws _) => true
  | none => false

/-! ## The CoinDesk health probe and its cache

`CoinDeskService.healthCheck` (coindesk.js lines 30 to 49) awaits
`getCurrentBitcoinPrice()` (lines 75 to 96), which consults the cache
under the key `btc-current-price` with a 60 000 ms freshness window before
any network activity. -/

namespace CoinDeskService

/-- Model of `getCurrentBitcoinPrice()` (coindesk.js lines 75 to 96) with the
network interaction abstracted: `live` is the response the upstream would
deliver if `makeRequest` were issued now.  A cached entry younger than
60 000 ms short-circuits the network call entirely; otherwise the live
response is fetched and stored through `setCachedData`.  The returned
`Bool` records whether a live network request was made. -/
def getCurrentBitcoinPrice {α : Type} (c : Cache α) (now : Int) (live : α) :
    Cache α × α × Bool :=
  match getCachedData c "btc-current-price" 60000 now with
  | (c1, some cached) => (c1, cached, false)
  | (c1, none) =>
    (CoinDeskService.setCachedData c1 "btc-current-price" live now, live, true)

/-- Model of `healthCheck()` (coindesk.js lines 30 to 49), success path: await
`getCurrentBitcoinPrice` and report `status: 'healthy'` together with the
price it returned.  The flag from `getCurrentBitcoinPrice` records whether
the probe caused any live request. -/
def healthCheck {α : Type} (c : Cache α) (now : Int) (live : α) :
    Cache α × ServiceEntry × α × Bool :=
  let r := getCurrentBitcoinPrice c now live
  (r.1, ⟨"healthy", none⟩, r.2.1, r.2.2)

end CoinDeskService

/-! ## Webhook dispatcher

`WebhookHandler` (the webhook handler bundled in services/index.js, lines
98 to 483).  `handle` authenticates with `verifySignature` and then routes
by the `x-github-event` header; `verifySignature` compares
`sha256=<hmac hex>` against the header with `crypto.timingSafeEqual`,
which throws when the two buffers have different byte lengths.  Header
strings are modelled as ASCII, so `String.length` is the byte length. -/

/-- Abstract model of the HMAC-SHA256 hex digest of the Node `crypto`
library: `digestHex secret message` stands for
`createHmac('sha256', secret).update(message).digest('hex')`. -/
structure CryptoHmac where
  digestHex : String → String → String

/-- The error thrown by `crypto.timingSafeEqual` when the two buffers have
different byte lengths (`ERR_CRYPTO_TIMING_SAFE_EQUAL_LENGTH`). -/
inductive SigError where
  | lengthMismatch
deriving DecidableEq

/-- Model of `crypto.timingSafeEqual(Buffer.from(a), Buffer.from(b))`: throws on a
byte-length mismatch, otherwise compares the buffers (in constant time). -/
def timingSafeEqual (a b : String) : Except SigError Bool :=
  if a.length = b.length then .ok (a == b) else .error .lengthMismatch

namespace WebhookHandler

/-- Model of `verifySignature(payload, signature, secret)` (lines 149 to 156): a
falsy (absent, modelled as empty) signature or secret gives `false`;
otherwise the expected digest string is `sha256=` followed by the HMAC hex
of the JSON re-serialized body, compared via `crypto.timingSafeEqual`.
`payload` stands for `JSON.stringify(req.body)`. -/
def verifySignature (M : CryptoHmac) (payload signature secret : String) :
    Except SigError Bool :=
  if signature = "" ∨ secret = "" then .ok false
  else timingSafeEqual signature ("sha256=" ++ M.digestHex secret payload)

/-- The observed behaviour of awaiting a registered event handler. -/
inductive HandlerBehavior where
  | ok
  | throws (msg : String)

/-- The HTTP response of the webhook endpoint together with whether an
event handler was invoked. -/
structure HandleOutcome where
  status : Nat
  handlerInvoked : Bool
deriving DecidableEq

/-- Model of `handle(req, res, githubApp)` (lines 111 to 147): verify the signature
(this call sits outside any try/catch inside `handle`, so a
`timingSafeEqual` throw escapes `handle` itself); a `false` verdict
responds 401 without dispatching; otherwise the handler registered for the
event type is looked up — no handler gives 200 (acknowledged, not
processed), a handler that returns gives 200, and a handler that throws is
caught by the inner try and gives 500. -/
def handle (M : CryptoHmac) (handlers : String → Option HandlerBehavior)
    (event payload signature secret : String) :
    Except SigError HandleOutcome :=
  match verifySignature M payload signature secret with
  | .error e => .error e
  | .ok false => .ok ⟨401, false⟩
  | .ok true =>
    match handlers event with
    | some .ok => .ok ⟨200, true⟩
    | some (.throws _) => .ok ⟨500, true⟩
    | none => .ok ⟨200, false⟩

/-- The `/webhooks/github` route (`CryptoIntelBot.setupWebhooks`, main
module lines 40 to 50): `webhookHandler.handle` is awaited inside a try
whose catch responds 500, so an exception escaping `handle` — such as a
`timingSafeEqual` length throw — surfaces as HTTP 500, not 401. -/
def webhookRoute (M : CryptoHmac)
    (handlers : String → Option HandlerBehavior)
    (event payload signature secret : String) : HandleOutcome :=
  match handle M handlers event payload signature secret with
  | .ok o => o
  | .error _ => ⟨500, false⟩

/-! ### Bot command grammar

`parseBotCommands` (lines 416 to 433) scans each line of the comment body
for the mention token followed by a command word and optional arguments,
using `line.match(/@crypto-intel-bot\s+(\w+)(?:\s+(.+))?/)`;
`executeBotCommand` (lines 435 to 467) dispatches on the command word. -/

/-- The mention token `@crypto-intel-bot`. -/
def mentionTok : List Char := "@crypto-intel-bot".toList

/-- The JavaScript regex class `\w`, that is `[A-Za-z0-9_]`. -/
def isWordChar (c : Char) : Bool := c.isAlphanum || c == '_'

/-- The JavaScript regex class `\s`, restricted to characters that can
still occur after the body has been split on `\n`. -/
def isJsSpace (c : Char) : Bool :=
  c == ' ' || c == '\t' || c == '\r' || c == '\x0b' || c == '\x0c'

/-- One parsed bot command: `{ command: match[1], args }`. -/
structure ParsedCommand where
  command : String
  args : List String
deriving DecidableEq

/-- Semantics of JavaScript `String.prototype.split` with a single
separator character: `"a,,b".split(",")` gives `["a", "", "b"]` and the
empty string gives `[""]`. -/
def splitOnChar (sep : Char) : List Char → List (List Char)
  | [] => [[]]
  | c :: cs =>
    match splitOnChar sep cs with
    | [] => [[]]
    | l :: ls => if c = sep then [] :: l :: ls else (c :: l) :: ls

/-- Attempt of the regex `@crypto-intel-bot\s+(\w+)(?:\s+(.+))?` at one
position of the line: the mention token, then at least one whitespace,
then a maximal word (the command); the optional group takes everything
after the next whitespace run, backtracking to a single space when only
whitespace follows the word. -/
def tryMatchAt (l : List Char) : Option (String × Option String) :=
  if mentionTok.isPrefixOf l then
    let rest := l.drop mentionTok.length
    let sp1 := rest.takeWhile isJsSpace
    let rest1 := rest.dropWhile isJsSpace
    let w := rest1.takeWhile isWordChar
    let rest2 := rest1.dropWhile isWordChar
    if sp1.isEmpty || w.isEmpty then none
    else
      let sp2 := rest2.takeWhile isJsSpace
      let rest3 := rest2.dropWhile isJsSpace
      if sp2.isEmpty then some (String.mk w, none)
      else if rest3.isEmpty then
        if 2 ≤ sp2.length then some (String.mk w, some " ")
        else some (String.mk w, none)
      else some (String.mk w, some (String.mk rest3))
  else none

/-- The regex engine scanning the line left to right for the first
position where the whole pattern matches. -/
def findMention : List Char → Option (String × Option String)
  | [] => none
  | c :: cs =>
    match tryMatchAt (c :: cs) with
    | some r => some r
    | none => findMention cs

/-- Model of `line.includes('@crypto-intel-bot')`. -/
def hasMention : List Char → Bool
  | [] => false
  | c :: cs => mentionTok.isPrefixOf (c :: cs) || hasMention cs

/-- The body of the per-line loop of `parseBotCommands` (lines 420 to
429): the `includes` guard, the regex match, and the construction
`{ command: match[1], args: match[2] ? match[2].split(' ') : [] }`. -/
def lineCommand (line : String) : Option ParsedCommand :=
  if hasMention line.toList then
    (findMention line.toList).map (fun m =>
      ⟨m.1,
       match m.2 with
       | some a => (splitOnChar ' ' a.toList).map String.mk
       | none => []⟩)
  else none

/-- Model of `parseBotCommands(commentBody)` (lines 416 to 433): split the body on
newlines and collect, in order, a command per line whose scan succeeds. -/
def parseBotCommands (body : String) : List ParsedCommand :=
  ((splitOnChar '\n' body.toList).map String.mk).foldl
    (fun cmds line =>
      match lineCommand line with
      | some c => cmds ++ [c]
      | none => cmds) []

/-- The service calls `executeBotCommand` can make. -/
inductive BotCall where
  | analyzeRepository
  | updateDeployments
  | getOverallStatus
deriving DecidableEq

/-- The observable result of `executeBotCommand`: which service calls were
made and the reply posted through `replyToCommand`. -/
structure BotExec where
  calls : List BotCall
  reply : String
deriving DecidableEq

/-- Model of `executeBotCommand(command, ...)` (lines 435 to 467): the switch on
the command word.  `analyze` awaits `gasEstimation.analyzeRepository`,
`monitor` awaits `networkMonitoring.updateDeployments`, `status` awaits
`apiServices.getOverallStatus` and replies with the serialized payload;
any other word replies with the fixed unknown-command text and calls no
service.  The surrounding try/catch turns a throw from the awaited service
call into the `Command failed` reply (`replyToCommand` itself swallows its
own errors).  The outcomes of the three possible service calls are
supplied as arguments; `statusRes` carries `JSON.stringify(status, null,
2)` on success. -/
def executeBotCommand (cmd : ParsedCommand)
    (analyzeRes monitorRes : Except String Unit)
    (statusRes : Except String String) : BotExec :=
  if cmd.command = "analyze" then
    match analyzeRes with
    | .ok _ =>
      ⟨[.analyzeRepository], "✅ Gas analysis started for this repository."⟩
    | .error m => ⟨[.analyzeRepository], "❌ Command failed: " ++ m⟩
  else if cmd.command = "monitor" then
    match monitorRes with
    | .ok _ =>
      ⟨[.updateDeployments],
       "✅ Network monitoring activated for this repository."⟩
    | .error m => ⟨[.updateDeployments], "❌ Command failed: " ++ m⟩
  else if cmd.command = "status" then
    match statusRes with
    | .ok payload =>
      ⟨[.getOverallStatus], "📊 **Current Status:**\n" ++ payload⟩
    | .error m => ⟨[.getOverallStatus], "❌ Command failed: " ++ m⟩
  else
    ⟨[], "❓ Unknown command: `" ++ cmd.command ++
         "`. Available commands: analyze, monitor, status"⟩

end WebhookHandler

/-! ## Concrete fixtures used by closed instances -/

/-- A concrete stand-in for the HMAC-SHA256 hex digest in closed
instances: the body `p` digests to 64 letters a, any other body to 64
letters b, so distinct bodies can have distinct digests of the correct hex
length. -/
def testHmac : CryptoHmac :=
  ⟨fun _ m =>
    if m = "p" then String.mk (List.replicate 64 'a')
    else String.mk (List.replicate 64 'b')⟩

/-- An event handler registry whose handler succeeds on every event. -/
def okHandlers : String → Option WebhookHandler.HandlerBehavior :=
  fun _ => some .ok

/-- The DeFi monitoring cache after 100 `setCachedData` calls with
distinct keys. -/
def defiFull100 : Cache Nat :=
  (List.range 100).foldl
    (fun c i => DeFiMonitoringService.setCachedData c (toString i) 0 0) []

/-! ## Lemmas about the `Map` model -/

section MapLemmas

variable {β : Type}

lemma mapSet_keys (m : List (String × β)) (k : String) (v : β) :
    (mapSet m k v).map Prod.fst =
      if m.any (fun p => p.1 == k) then m.map Prod.fst
      else m.map Prod.fst ++ [k] := by
  unfold mapSet
  split
  · rw [List.map_map]
    apply List.map_congr_left
    intro p _
    simp only [Function.comp_apply]
    split
    · next hpk => exact (beq_iff_eq.mp hpk).symm
    · rfl
  · simp

lemma mapSet_length (m : List (String × β)) (k : String) (v : β) :
    (mapSet m k v).length =
      if m.any (fun p => p.1 == k) then m.length else m.length + 1 := by
  unfold mapSet
  split <;> simp

lemma not_mem_keys_of_any_false (m : List (String × β)) (k : String)
    (h : m.any (fun p => p.1 == k) = false) : k ∉ m.map Prod.fst := by
  intro hk
  obtain ⟨p, hp, hke⟩ := List.mem_map.mp hk
  exact (List.any_eq_false.mp h p hp) (by simp [hke])

lemma find_map_update (m : List (String × β)) (k : String) (v : β)
    (h : m.any (fun p => p.1 == k) = true) :
    (m.map (fun p => if p.1 == k then (k, v) else p)).find?
      (fun p => p.1 == k) = some (k, v) := by
  induction m with
  | nil => simp at h
  | cons a t ih =>
    simp only [List.map_cons]
    by_cases hak : (a.1 == k) = true
    · rw [if_pos hak]
      simp [List.find?]
    · rw [if_neg hak]
      have hakf : (a.1 == k) = false := by simpa using hak
      rw [List.find?_cons]
      simp only [hakf]
      have ht : t.any (fun p => p.1 == k) = true := by
        rcases List.any_eq_true.mp h with ⟨p, hp, hpk⟩
        rcases List.mem_cons.mp hp with rfl | hpt
        · exact absurd hpk hak
        · exact List.any_eq_true.mpr ⟨p, hpt, hpk⟩
      exact ih ht

lemma find_append_fresh (m : List (String × β)) (k : String) (v : β)
    (h : m.any (fun p => p.1 == k) = false) :
    (m ++ [(k, v)]).find? (fun p => p.1 == k) = some (k, v) := by
  induction m with
  | nil => simp [List.find?]
  | cons a t ih =>
    have hak : ((a.1 == k) = false) ∧ t.any (fun p => p.1 == k) = false := by
      constructor
      · by_contra hc
        exact (List.any_eq_false.mp h a (by simp)) (by simpa using hc)
      · apply List.any_eq_false.mpr
        intro p hp
        exact List.any_eq_false.mp h p (List.mem_cons_of_mem _ hp)
    rw [List.cons_append, List.find?_cons]
    simp only [hak.1]
    exact ih hak.2

lemma mapGet_mapSet_self (m : List (String × β)) (k : String) (v : β) :
    mapGet (mapSet m k v) k = some v := by
  unfold mapGet mapSet
  by_cases h : m.any (fun p => p.1 == k) = true
  · rw [if_pos h, find_map_update m k v h]
    rfl
  · rw [if_neg h, find_append_fresh m k v (Bool.eq_false_iff.mpr h)]
    rfl

lemma mapGet_mapDelete_self (m : List (String × β)) (k : String) :
    mapGet (mapDelete m k) k = none := by
  induction m with
  | nil => rfl
  | cons a t ih =>
    unfold mapDelete at ih ⊢
    rw [List.filter_cons]
    by_cases hak : (a.1 != k) = true
    · rw [if_pos hak]
      have hakf : (a.1 == k) = false := by simpa [bne] using hak
      unfold mapGet at ih ⊢
      rw [List.find?_cons]
      simp only [hakf]
      exact ih
    · rw [if_neg hak]
      exact ih

lemma mapGet_mapDelete_ne (m : List (String × β)) (k x : String)
    (h : k ≠ x) : mapGet (mapDelete m x) k = mapGet m k := by
  induction m with
  | nil => rfl
  | cons a t ih =>
    unfold mapDelete at ih ⊢
    rw [List.filter_cons]
    by_cases hax : (a.1 != x) = true
    · rw [if_pos hax]
      unfold mapGet
      rw [List.find?_cons, List.find?_cons]
      split <;> [rfl; exact ih]
    · rw [if_neg hax]
      have hx : a.1 = x := by simpa using hax
      unfold mapGet
      rw [List.find?_cons_of_neg _ (by simp [hx, Ne.symm h])]
      exact ih

lemma foldlDelete_notMem (ks : List String) (m : List (String × β))
    (k : String) (hk : k ∉ ks) :
    mapGet (ks.foldl (fun acc x => mapDelete acc x) m) k = mapGet m k := by
  induction ks generalizing m with
  | nil => rfl
  | cons x t ih =>
    rw [List.foldl_cons, ih _ (fun h => hk (List.mem_cons_of_mem _ h)),
      mapGet_mapDelete_ne]
    exact fun he => hk (by simp [he])

lemma mapDelete_head_nodup (a : String × β) (t : List (String × β))
    (h : ((a :: t).map Prod.fst).Nodup) : mapDelete (a :: t) a.1 = t := by
  unfold mapDelete
  rw [List.filter_cons, if_neg (by simp)]
  apply List.filter_eq_self.mpr
  intro p hp
  have hnm : a.1 ∉ t.map Prod.fst := (List.nodup_cons.mp (by simpa using h)).1
  simp only [bne_iff_ne, ne_eq]
  intro hc
  exact hnm (List.mem_map.mpr ⟨p, hp, hc⟩)

lemma foldlDelete_take_eq_drop (m : List (String × β))
    (h : (m.map Prod.fst).Nodup) (n : Nat) :
    ((m.map Prod.fst).take n).foldl (fun acc x => mapDelete acc x) m =
      m.drop n := by
  induction m generalizing n with
  | nil => simp
  | cons a t ih =>
    cases n with
    | zero => simp
    | succ n =>
      rw [List.map_cons, List.take_succ_cons, List.foldl_cons,
        mapDelete_head_nodup a t h, List.drop_succ_cons]
      exact ih (List.nodup_cons.mp (by simpa using h)).2 n

end MapLemmas

/-! ## Lemmas about the TTL cache -/

section CacheLemmas

variable {α : Type}

/-- A key just written through the trimmed `setCachedData` is present with
the fresh timestamp, provided the store was within its ceiling and the
trim count does not exceed the ceiling (true of every configured store). -/
lemma mapGet_setCachedDataWith (ceiling trimCount : Nat) (c : Cache α)
    (k : String) (v : α) (t : Int) (htc : trimCount ≤ ceiling)
    (hb : c.length ≤ ceiling) :
    mapGet (setCachedDataWith ceiling trimCount c k v t) k =
      some ⟨v, t⟩ := by
  simp only [setCachedDataWith]
  by_cases hany : c.any (fun p => p.1 == k) = true
  · have hlen : (mapSet c k ⟨v, t⟩).length = c.length := by
      rw [mapSet_length, if_pos hany]
    rw [if_neg (by omega)]
    exact mapGet_mapSet_self c k ⟨v, t⟩
  · have hany2 : c.any (fun p => p.1 == k) = false := Bool.eq_false_iff.mpr hany
    have hlen : (mapSet c k ⟨v, t⟩).length = c.length + 1 := by
      rw [mapSet_length, if_neg hany]
    split
    · next hover =>
      have hkeys : (mapSet c k ⟨v, t⟩).map Prod.fst =
          c.map Prod.fst ++ [k] := by
        rw [mapSet_keys, if_neg hany]
      have hceq : c.length = ceiling := by omega
      have htake : ((mapSet c k ⟨v, t⟩).map Prod.fst).take trimCount =
          (c.map Prod.fst).take trimCount := by
        rw [hkeys]
        exact List.take_append_of_le_length (by simpa using htc.trans hceq.ge)
      rw [htake, foldlDelete_notMem]
      · exact mapGet_mapSet_self c k ⟨v, t⟩
      · intro hk
        exact not_mem_keys_of_any_false c k hany2
          (List.take_subset _ _ hk)
    · exact mapGet_mapSet_self c k ⟨v, t⟩

end CacheLemmas

/-! ## Lemmas about the webhook dispatcher -/

section WebhookLemmas

lemma handle_of_verify_false (M : CryptoHmac)
    (handlers : String → Option WebhookHandler.HandlerBehavior)
    (event payload signature secret : String)
    (h : WebhookHandler.verifySignature M payload signature secret =
      Except.ok false) :
    WebhookHandler.handle M handlers event payload signature secret =
      Except.ok ⟨401, false⟩ := by
  unfold WebhookHandler.handle
  rw [h]

lemma verify_false_of_same_length_mismatch (M : CryptoHmac)
    (payload signature secret : String)
    (h1 : signature ≠ "") (h2 : secret ≠ "")
    (h3 : signature.length =
      ("sha256=" ++ M.digestHex secret payload).length)
    (h4 : signature ≠ "sha256=" ++ M.digestHex secret payload) :
    WebhookHandler.verifySignature M payload signature secret =
      Except.ok false := by
  unfold WebhookHandler.verifySignature timingSafeEqual
  rw [if_neg (by push_neg; exact ⟨h1, h2⟩), if_pos h3]
  have hb : (signature == "sha256=" ++ M.digestHex secret payload) = false := by
    simpa using h4
  rw [hb]

lemma sha_prefix_append_ne_empty (x : String) : "sha256=" ++ x ≠ "" := by
  intro hc
  have h := congrArg String.length hc
  rw [String.length_append] at h
  have h7 : ("sha256=" : String).length = 7 := rfl
  have h0 : ("" : String).length = 0 := rfl
  rw [h7, h0] at h
  omega

lemma sha_prefix_append_inj (x y : String)
    (h : "sha256=" ++ x = "sha256=" ++ y) : x = y := by
  have hd := congrArg String.data h
  rw [String.data_append, String.data_append] at hd
  exact String.ext (List.append_cancel_left hd)

lemma digest_string_length (M : CryptoHmac) (secret payload : String)
    (h : (M.digestHex secret payload).length = 64) :
    ("sha256=" ++ M.digestHex secret payload).length = 71 := by
  rw [String.length_append, h]
  decide

end WebhookLemmas

/-! ## Claims -/

/-- C1 counterexample: a payload whose computed digest does not match the
delivered signature header is NOT always answered with 401 — a signature
shorter than the digest string makes `timingSafeEqual` throw, `handle`
rethrows, and the route's catch responds 500. -/
theorem signature_mismatch_can_give_500 :
    "bad" ≠ "sha256=" ++ testHmac.digestHex "s" "p" ∧
    WebhookHandler.handle testHmac okHandlers "push" "p" "bad" "s" ≠
      Except.ok ⟨401, false⟩ ∧
    WebhookHandler.webhookRoute testHmac okHandlers "push" "p" "bad" "s" =
      ⟨500, false⟩ := by
  refine ⟨by decide, ?_, rfl⟩
  intro hc
  rw [show WebhookHandler.handle testHmac okHandlers "push" "p" "bad" "s" =
      Except.error SigError.lengthMismatch from rfl] at hc
  exact Except.noConfusion hc

/-- C1 (amended): a falsy signature or secret is answered 401 without
invoking any handler; and when both are present and the signature has the
same byte length as the computed digest string but differs from it, the
response is again 401 with no handler invoked — in particular a signature
computed over a different body, whose digest has the standard hex length
and differs from the delivered body's digest, is always rejected this
way. -/
theorem handle_auth_failure_responds_401 (M : CryptoHmac)
    (handlers : String → Option WebhookHandler.HandlerBehavior)
    (event payload signature secret : String) :
    ((signature = "" ∨ secret = "") →
      WebhookHandler.handle M handlers event payload signature secret =
        Except.ok ⟨401, false⟩) ∧
    (signature ≠ "" → secret ≠ "" →
      signature.length =
        ("sha256=" ++ M.digestHex secret payload).length →
      signature ≠ "sha256=" ++ M.digestHex secret payload →
      WebhookHandler.handle M handlers event payload signature secret =
        Except.ok ⟨401, false⟩) ∧
    (∀ otherPayload : String, secret ≠ "" →
      (M.digestHex secret otherPayload).length =
        (M.digestHex secret payload).length →
      M.digestHex secret otherPayload ≠ M.digestHex secret payload →
      WebhookHandler.handle M handlers event payload
        ("sha256=" ++ M.digestHex secret otherPayload) secret =
        Except.ok ⟨401, false⟩) := by
  refine ⟨?_, ?_, ?_⟩
  · intro h
    apply handle_of_verify_false
    unfold WebhookHandler.verifySignature
    rw [if_pos h]
  · intro h1 h2 h3 h4
    exact handle_of_verify_false M handlers event payload signature secret
      (verify_false_of_same_length_mismatch M payload signature secret
        h1 h2 h3 h4)
  · intro otherPayload h2 hlen hne
    apply handle_of_verify_false
    apply verify_false_of_same_length_mismatch M payload _ secret
      (sha_prefix_append_ne_empty _) h2
    · rw [String.length_append, String.length_append, hlen]
    · intro hc
      exact hne (sha_prefix_append_inj _ _ hc)

/-- C1 witness: a signature computed over the body `x` instead of the
delivered body is rejected with 401 and no handler runs. -/
theorem handle_auth_failure_responds_401_witness :
    testHmac.digestHex "s" "x" ≠ testHmac.digestHex "s" "p" ∧
    WebhookHandler.handle testHmac okHandlers "push" "p"
      ("sha256=" ++ testHmac.digestHex "s" "x") "s" =
      Except.ok ⟨401, false⟩ :=
  ⟨by decide,
   (handle_auth_failure_responds_401 testHmac okHandlers "push" "p"
      "sig-unused" "s").2.2 "x" (by decide) (by decide) (by decide)⟩

/-- C10: with a configured secret and a present signature header whose
byte length differs from the 71 bytes of the computed digest string,
`verifySignature` throws out of `handle` and the route responds 500, not
401. -/
theorem malformed_signature_length_gives_500 (M : CryptoHmac)
    (handlers : String → Option WebhookHandler.HandlerBehavior)
    (event payload signature secret : String)
    (hs : signature ≠ "") (hk : secret ≠ "")
    (hd : (M.digestHex secret payload).length = 64)
    (hl : signature.length ≠ 71) :
    WebhookHandler.handle M handlers event payload signature secret =
      Except.error SigError.lengthMismatch ∧
    WebhookHandler.webhookRoute M handlers event payload signature secret =
      ⟨500, false⟩ := by
  have hv : WebhookHandler.verifySignature M payload signature secret =
      Except.error SigError.lengthMismatch := by
    unfold WebhookHandler.verifySignature timingSafeEqual
    rw [if_neg (by push_neg; exact ⟨hs, hk⟩),
      if_neg (by rw [digest_string_length M secret payload hd]; exact hl)]
  constructor
  · unfold WebhookHandler.handle
    rw [hv]
  · unfold WebhookHandler.webhookRoute WebhookHandler.handle
    rw [hv]

/-- C10 witness: the three-byte signature `bad` makes the dispatcher throw
and the endpoint answer 500. -/
theorem malformed_signature_length_gives_500_witness :
    (testHmac.digestHex "s" "p").length = 64 ∧
    WebhookHandler.webhookRoute testHmac okHandlers "push" "p" "bad" "s" =
      ⟨500, false⟩ :=
  ⟨by decide,
   (malformed_signature_length_gives_500 testHmac okHandlers "push" "p"
      "bad" "s" (by decide) (by decide) (by decide) (by decide)).2⟩

/-- C2: evaluating `start()` on a freshly constructed runner shows the bug
claimed against — `isRunning` becomes `true` and five tasks are
registered, but every one of their timers is inactive, because `addTask`
creates each cron task with `scheduled: this.isRunning` before `start`
sets `isRunning = true`, and nothing ever starts them afterwards.  So no
registered task can fire on its schedule, contradicting the claim and the
log line `Started N scheduled tasks`. -/
theorem start_sets_running_but_timers_inactive (m : Nat) :
    (ScheduledTasks.start ScheduledTasks.initial m).isRunning = true ∧
    ((ScheduledTasks.start ScheduledTasks.initial m).tasks.map
        (fun p => p.2.active)) = [false, false, false, false, false] ∧
    (ScheduledTasks.start ScheduledTasks.initial m).tasks.length = 5 :=
  ⟨rfl, rfl, rfl⟩

/-- Helper: the firing wrapper never changes the runner state. -/
lemma fire_fst (s : ScheduledTasks.State) (n : String)
    (oc : Except String Unit) (t0 t1 : Int) :
    (ScheduledTasks.fire s n oc t0 t1).1 = s := by
  cases oc <;> rfl

/-- Helper: sequential firings leave the state unchanged and log one entry
per firing, failure or not. -/
lemma fireAll_eq (s : ScheduledTasks.State)
    (l : List (String × Except String Unit × Int × Int)) :
    ScheduledTasks.fireAll s l =
      (s, l.map (fun q =>
        (ScheduledTasks.fire s q.1 q.2.1 q.2.2.1 q.2.2.2).2)) := by
  induction l with
  | nil => rfl
  | cons hd tl ih =>
    obtain ⟨n, oc, t0, t1⟩ := hd
    simp only [ScheduledTasks.fireAll, fire_fst, ih, List.map_cons]

/-- C3: a throwing task body is caught inside the firing wrapper — the
firing returns normally with a failure log carrying the elapsed duration,
the registry and `isRunning` are untouched, and in a run of several
firings a failure neither stops the run nor changes state, so future
firings of every task are unaffected; three firings where the second
fails yield success, failure, success. -/
theorem task_failure_isolated :
    (∀ (s : ScheduledTasks.State) (name msg : String) (t0 t1 : Int),
      ScheduledTasks.fire s name (Except.error msg) t0 t1 =
        (s, ⟨name, true, t1 - t0⟩)) ∧
    (∀ (s : ScheduledTasks.State)
        (l : List (String × Except String Unit × Int × Int)),
      (ScheduledTasks.fireAll s l).1 = s ∧
      (ScheduledTasks.fireAll s l).2.length = l.length) ∧
    (∀ (s : ScheduledTasks.State) (n1 n2 n3 msg : String)
        (a b c d e f : Int),
      ScheduledTasks.fireAll s
        [(n1, Except.ok (), a, b), (n2, Except.error msg, c, d),
         (n3, Except.ok (), e, f)] =
        (s, [⟨n1, false, b - a⟩, ⟨n2, true, d - c⟩,
             ⟨n3, false, f - e⟩])) := by
  refine ⟨fun s name msg t0 t1 => rfl, fun s l => ?_, fun _ _ _ _ _ _ _ _ _ _ _ => rfl⟩
  rw [fireAll_eq]
  exact ⟨rfl, by simp⟩

/-- Helper: the pacing update records the issue instant as the new
`lastRequestTime` and keeps the configured delay. -/
lemma makeRequestAt_state (s : ClientState) (now : Int) :
    (makeRequestAt s now).1 =
      ⟨s.rateLimitDelay, (makeRequestAt s now).2⟩ := by
  simp only [makeRequestAt]
  split <;> rfl

/-- Helper: a request entered no earlier than `lastRequestTime` is issued
at least `rateLimitDelay` after `lastRequestTime`. -/
lemma makeRequestAt_gap (s : ClientState) (now : Int) :
    s.lastRequestTime + s.rateLimitDelay ≤ (makeRequestAt s now).2 := by
  simp only [makeRequestAt]
  split
  · next hlt => dsimp only; omega
  · next hge => dsimp only; omega

/-- C4: two sequential calls through the same client — the second entered
only after the first request was issued — have their outbound request
starts separated by at least the configured `rateLimitDelay`
(`minInterval`); this is the identical pacing preamble of
`CoinDeskService.makeRequest` and `CoinGeckoService.makeRequest`. -/
theorem sequential_calls_respect_min_interval (s : ClientState)
    (now1 now2 : Int) (_hseq : (makeRequestAt s now1).2 ≤ now2) :
    s.rateLimitDelay ≤
      (makeRequestAt (makeRequestAt s now1).1 now2).2 -
        (makeRequestAt s now1).2 := by
  rw [makeRequestAt_state s now1]
  have hgap := makeRequestAt_gap
    ⟨s.rateLimitDelay, (makeRequestAt s now1).2⟩ now2
  dsimp only at hgap
  omega

/-- C4 witness: with `minInterval = 1000` and `lastRequestTime = 0`, a
call entered at 0 issues at 1000; a second call entered at 1200 issues at
least 1000 later. -/
theorem sequential_calls_respect_min_interval_witness :
    (makeRequestAt ⟨1000, 0⟩ 0).2 ≤ 1200 ∧
    (ClientState.mk 1000 0).rateLimitDelay ≤
      (makeRequestAt (makeRequestAt ⟨1000, 0⟩ 0).1 1200).2 -
        (makeRequestAt ⟨1000, 0⟩ 0).2 :=
  ⟨by decide,
   sequential_calls_respect_min_interval ⟨1000, 0⟩ 0 1200 (by decide)⟩

/-- C5 counterexample: with no intervening `set`, a `get` issued within
the freshness window can still miss — an intervening `get` of the same key
under a smaller window that has lapsed deletes the entry.  Here `set("x",
7)` at time 0, `get("x", 10)` at time 20 (expired, evicts), then
`get("x", 100)` at time 30: the elapsed 30 is within the window 100, yet
the result is absent rather than 7. -/
theorem fresh_get_after_expired_get_misses :
    ((30 : Int) - 0 ≤ 100) ∧
    (getCachedData (getCachedData
        (CoinGeckoService.setCachedData ([] : Cache Nat) "x" 7 0)
        "x" 10 20).1 "x" 100 30).2 = none := by
  exact ⟨by decide, by decide⟩

/-- C5 (amended): for every store within its configured ceiling (with the
trim count at most the ceiling, true of all configured stores), a
`get(k, w)` issued at most `w` milliseconds after `set(k, v)` with no
intervening cache operation returns `v`, and a `get(k, w)` issued more
than `w` milliseconds after returns absent and removes `k` from the store;
the same holds unconditionally for the trim-free DeFi monitoring store. -/
theorem get_after_set_within_window {α : Type} (c : Cache α) (k : String)
    (v : α) (w t1 t2 : Int) (ceiling trimCount : Nat)
    (htc : trimCount ≤ ceiling) (hb : c.length ≤ ceiling) :
    (t2 - t1 ≤ w →
      getCachedData (setCachedDataWith ceiling trimCount c k v t1) k w t2 =
        (setCachedDataWith ceiling trimCount c k v t1, some v)) ∧
    (t2 - t1 > w →
      (getCachedData (setCachedDataWith ceiling trimCount c k v t1)
          k w t2).2 = none ∧
      mapGet (getCachedData (setCachedDataWith ceiling trimCount c k v t1)
          k w t2).1 k = none) ∧
    (t2 - t1 ≤ w →
      getCachedData (DeFiMonitoringService.setCachedData c k v t1) k w t2 =
        (DeFiMonitoringService.setCachedData c k v t1, some v)) ∧
    (t2 - t1 > w →
      (getCachedData (DeFiMonitoringService.setCachedData c k v t1)
          k w t2).2 = none ∧
      mapGet (getCachedData (DeFiMonitoringService.setCachedData c k v t1)
          k w t2).1 k = none) := by
  have hget := mapGet_setCachedDataWith ceiling trimCount c k v t1 htc hb
  have hget2 : mapGet (DeFiMonitoringService.setCachedData c k v t1) k =
      some ⟨v, t1⟩ := mapGet_mapSet_self c k ⟨v, t1⟩
  refine ⟨?_, ?_, ?_, ?_⟩
  · intro hw
    unfold getCachedData
    rw [hget]
    dsimp only
    rw [if_neg (by omega)]
  · intro hw
    unfold getCachedData
    rw [hget]
    dsimp only
    rw [if_pos (by omega)]
    exact ⟨rfl, mapGet_mapDelete_self _ k⟩
  · intro hw
    unfold getCachedData
    rw [hget2]
    dsimp only
    rw [if_neg (by omega)]
  · intro hw
    unfold getCachedData
    rw [hget2]
    dsimp only
    rw [if_pos (by omega)]
    exact ⟨rfl, mapGet_mapDelete_self _ k⟩

/-- C5 witness: on the empty CoinGecko-shaped store, `set("x", 7)` at 0
followed by `get("x", 10)` at 5 returns 7. -/
theorem get_after_set_within_window_witness :
    ((20 ≤ 100 ∧ ([] : Cache Nat).length ≤ 100) ∧ (5 : Int) - 0 ≤ 10) ∧
    getCachedData (setCachedDataWith 100 20 ([] : Cache Nat) "x" 7 0)
        "x" 10 5 =
      (setCachedDataWith 100 20 ([] : Cache Nat) "x" 7 0, some 7) :=
  ⟨⟨⟨by decide, by decide⟩, by decide⟩,
   (get_after_set_within_window ([] : Cache Nat) "x" 7 10 0 5 100 20
      (by decide) (by decide)).1 (by decide)⟩

set_option maxRecDepth 100000 in
/-- C6 counterexample: the DeFi monitoring store has no eviction at all —
after one hundred one `setCachedData` calls with distinct keys its size is
101, above the 100-entry ceiling every other store enforces, so trim on
overflow does not hold for every cache store in the system. -/
theorem defi_set_exceeds_ceiling :
    defiFull100.length = 100 ∧
    (DeFiMonitoringService.setCachedData defiFull100 "100" 0 0).length =
      101 := by
  exact ⟨by decide, by decide⟩

/-- C6 (amended): for every trimmed store — CoinGecko, Arkham and network
monitoring with ceiling 100/trim 20, CoinDesk and gas estimation with
ceiling 50/trim 10 — `set` is total and, starting from a store with
unique keys within its ceiling, leaves the size at or below the ceiling,
keeps keys unique, and on overflow evicts exactly the `trimCount`
earliest-inserted entries (FIFO order); the DeFi monitoring store alone
performs no eviction (see the counterexample). -/
theorem set_trims_to_ceiling_fifo {α : Type} (c : Cache α) (k : String)
    (v : α) (t : Int) (ceiling trimCount : Nat)
    (hn : (c.map Prod.fst).Nodup) (h1 : 1 ≤ trimCount)
    (hb : c.length ≤ ceiling) :
    (setCachedDataWith ceiling trimCount c k v t).length ≤ ceiling ∧
    ((setCachedDataWith ceiling trimCount c k v t).map Prod.fst).Nodup ∧
    ((mapSet c k ⟨v, t⟩).length > ceiling →
      setCachedDataWith ceiling trimCount c k v t =
        (mapSet c k ⟨v, t⟩).drop trimCount) := by
  simp only [setCachedDataWith]
  by_cases hany : c.any (fun p => p.1 == k) = true
  · have hlen : (mapSet c k ⟨v, t⟩).length = c.length := by
      rw [mapSet_length, if_pos hany]
    have hkeys : (mapSet c k ⟨v, t⟩).map Prod.fst = c.map Prod.fst := by
      rw [mapSet_keys, if_pos hany]
    rw [if_neg (by omega)]
    exact ⟨by omega, by rw [hkeys]; exact hn, fun hc => absurd hc (by omega)⟩
  · have hany2 : c.any (fun p => p.1 == k) = false :=
      Bool.eq_false_iff.mpr hany
    have hlen : (mapSet c k ⟨v, t⟩).length = c.length + 1 := by
      rw [mapSet_length, if_neg hany]
    have hkeys : (mapSet c k ⟨v, t⟩).map Prod.fst =
        c.map Prod.fst ++ [k] := by
      rw [mapSet_keys, if_neg hany]
    have hnodup1 : ((mapSet c k ⟨v, t⟩).map Prod.fst).Nodup := by
      rw [hkeys]
      simp [List.nodup_append, hn, not_mem_keys_of_any_false c k hany2]
    by_cases hover : (mapSet c k ⟨v, t⟩).length > ceiling
    · rw [if_pos hover]
      have hdrop := foldlDelete_take_eq_drop (mapSet c k ⟨v, t⟩) hnodup1
        trimCount
      refine ⟨?_, ?_, fun _ => hdrop⟩
      · rw [hdrop, List.length_drop]
        omega
      · rw [hdrop]
        have hmd : ((mapSet c k ⟨v, t⟩).drop trimCount).map Prod.fst =
            ((mapSet c k ⟨v, t⟩).map Prod.fst).drop trimCount :=
          List.map_drop ..
        rw [hmd]
        exact hnodup1.sublist (List.drop_sublist _ _)
    · rw [if_neg hover]
      exact ⟨by omega, hnodup1, fun hc => absurd hc hover⟩

/-- C6 witness: a two-entry store with ceiling 2 and trim 1 — inserting a
third key triggers the trim, which evicts exactly the earliest-inserted
entry and leaves the size at the ceiling. -/
theorem set_trims_to_ceiling_fifo_witness :
    ((([("a", ⟨1, 0⟩), ("b", ⟨2, 0⟩)] : Cache Nat).map Prod.fst).Nodup ∧
      1 ≤ 1 ∧ ([("a", ⟨1, 0⟩), ("b", ⟨2, 0⟩)] : Cache Nat).length ≤ 2) ∧
    ((setCachedDataWith 2 1 ([("a", ⟨1, 0⟩), ("b", ⟨2, 0⟩)] : Cache Nat)
        "c" 3 5).length ≤ 2 ∧
      ((setCachedDataWith 2 1 ([("a", ⟨1, 0⟩), ("b", ⟨2, 0⟩)] : Cache Nat)
        "c" 3 5).map Prod.fst).Nodup ∧
      ((mapSet ([("a", ⟨1, 0⟩), ("b", ⟨2, 0⟩)] : Cache Nat)
          "c" ⟨3, 5⟩).length > 2 →
        setCachedDataWith 2 1 ([("a", ⟨1, 0⟩), ("b", ⟨2, 0⟩)] : Cache Nat)
            "c" 3 5 =
          (mapSet ([("a", ⟨1, 0⟩), ("b", ⟨2, 0⟩)] : Cache Nat)
            "c" ⟨3, 5⟩).drop 1)) :=
  ⟨⟨by decide, by decide, by decide⟩,
   set_trims_to_ceiling_fifo ([("a", ⟨1, 0⟩), ("b", ⟨2, 0⟩)] : Cache Nat)
     "c" 3 5 2 1 (by decide) (by decide) (by decide)⟩

/-- Helper: the status loop records one entry per registered service,
pointwise in its own probe result, and flags an error exactly when some
probe reported `error` or threw. -/
lemma getOverallStatusLoop_eq (l : List (String × Option ProbeResult)) :
    getOverallStatusLoop l =
      (l.map (fun p => (p.1, probeEntry p.2)),
       l.any (fun p => probeBad p.2)) := by
  induction l with
  | nil => rfl
  | cons hd tl ih =>
    obtain ⟨name, probe⟩ := hd
    cases probe with
    | none =>
      simp [getOverallStatusLoop, ih, probeEntry, probeBad]
    | some pr =>
      cases pr <;> simp [getOverallStatusLoop, ih, probeEntry, probeBad]

/-- C7: `getOverallStatus` probes every registered service — services
without a probe are recorded `unknown`, a probe that throws becomes that
service's `{status: error, error: message}` entry without affecting any
other service's entry or the completion of the aggregate (the result is a
pointwise map over the registry) — and `overall` is `degraded` exactly
when at least one probe reported status `error` or threw, else
`healthy`. -/
theorem overall_status_characterization
    (l : List (String × Option ProbeResult)) :
    getOverallStatus l =
      ⟨l.map (fun p => (p.1, probeEntry p.2)),
       if l.any (fun p => probeBad p.2) then "degraded" else "healthy"⟩ ∧
    ((getOverallStatus l).overall = "degraded" ↔
      l.any (fun p => probeBad p.2) = true) := by
  have hmain : getOverallStatus l =
      ⟨l.map (fun p => (p.1, probeEntry p.2)),
       if l.any (fun p => probeBad p.2) then "degraded" else "healthy"⟩ := by
    unfold getOverallStatus
    rw [getOverallStatusLoop_eq]
  refine ⟨hmain, ?_⟩
  rw [hmain]
  by_cases hbad : l.any (fun p => probeBad p.2) = true
  · simp [hbad]
  · simp only [Bool.eq_false_iff.mpr hbad]
    constructor
    · intro hc
      exact absurd hc (by decide)
    · intro hc
      exact absurd hc (by decide)

/-- C8 counterexample: the CoinDesk probe does not always perform a live
check — with the Bitcoin price 42 cached at time 0 and the probe run at
time 30000 while the live upstream would answer 99, `healthCheck` reports
the cached 42 and makes no network request at all. -/
theorem coindesk_probe_served_from_cache :
    (CoinDeskService.healthCheck
        (CoinDeskService.setCachedData ([] : Cache Nat)
          "btc-current-price" 42 0)
        30000 99).2.2 = (42, false) ∧ (42 : Nat) ≠ 99 := by
  exact ⟨by decide, by decide⟩

/-- C8 (amended): the aggregate status itself is recomputed on every call
(it is a pure function of the probe results, never memoized), but an
individual probe may serve cached data — the CoinDesk probe returns the
cached Bitcoin price and makes no live request whenever the cached entry
is at most 60 seconds old, and performs a live request (storing its
result) when the entry is missing or older. -/
theorem coindesk_probe_cache_behaviour {α : Type} (c : Cache α)
    (now : Int) (live : α) :
    (∀ (v : α) (t : Int),
      mapGet c "btc-current-price" = some ⟨v, t⟩ → now - t ≤ 60000 →
      CoinDeskService.healthCheck c now live =
        (c, ⟨"healthy", none⟩, v, false)) ∧
    (mapGet c "btc-current-price" = none →
      CoinDeskService.healthCheck c now live =
        (CoinDeskService.setCachedData c "btc-current-price" live now,
         ⟨"healthy", none⟩, live, true)) ∧
    (∀ (v : α) (t : Int),
      mapGet c "btc-current-price" = some ⟨v, t⟩ → now - t > 60000 →
      CoinDeskService.healthCheck c now live =
        (CoinDeskService.setCachedData (mapDelete c "btc-current-price")
           "btc-current-price" live now,
         ⟨"healthy", none⟩, live, true)) := by
  refine ⟨?_, ?_, ?_⟩
  · intro v t hget hfresh
    unfold CoinDeskService.healthCheck CoinDeskService.getCurrentBitcoinPrice
      getCachedData
    rw [hget]
    dsimp only
    rw [if_neg (by omega)]
  · intro hget
    unfold CoinDeskService.healthCheck CoinDeskService.getCurrentBitcoinPrice
      getCachedData
    rw [hget]
  · intro v t hget hstale
    unfold CoinDeskService.healthCheck CoinDeskService.getCurrentBitcoinPrice
      getCachedData
    rw [hget]
    dsimp only
    rw [if_pos (by omega)]

/-- C8 witness: with the price cached 30 seconds ago, the probe reports it
without a live request. -/
theorem coindesk_probe_cache_behaviour_witness :
    mapGet (CoinDeskService.setCachedData ([] : Cache Nat)
        "btc-current-price" 42 0) "btc-current-price" = some ⟨42, 0⟩ ∧
    CoinDeskService.healthCheck
        (CoinDeskService.setCachedData ([] : Cache Nat)
          "btc-current-price" 42 0) 30000 99 =
      (CoinDeskService.setCachedData ([] : Cache Nat)
          "btc-current-price" 42 0, ⟨"healthy", none⟩, 42, false) :=
  ⟨by decide,
   (coindesk_probe_cache_behaviour
      (CoinDeskService.setCachedData ([] : Cache Nat)
        "btc-current-price" 42 0) 30000 99).1 42 0
     (by decide) (by decide)⟩

/-- Helper: the command-collecting fold of `parseBotCommands` appends, in
order, the command of every line whose scan succeeds. -/
lemma parse_foldl_eq (ls : List String)
    (acc : List WebhookHandler.ParsedCommand) :
    ls.foldl (fun cmds line =>
      match WebhookHandler.lineCommand line with
      | some c => cmds ++ [c]
      | none => cmds) acc =
    acc ++ ls.filterMap WebhookHandler.lineCommand := by
  induction ls generalizing acc with
  | nil => simp
  | cons hd tl ih =>
    rw [List.foldl_cons, List.filterMap_cons]
    cases h : WebhookHandler.lineCommand hd with
    | none => simp only [h, ih]
    | some cmd => simp only [h, ih, List.append_assoc, List.singleton_append]

/-- C9: the comment body is scanned line by line for the mention token
followed by a command word and optional arguments; `@crypto-intel-bot
status` parses to the `status` command; `analyze` and `monitor` dispatch
to their service calls, the `status` command calls only the aggregate
health status and replies with its payload (invoking neither `analyze`
nor `monitor`), and every other command word calls no service and
produces the fixed unknown-command reply listing the available commands
rather than an error. -/
theorem bot_command_grammar :
    (∀ body : String,
      WebhookHandler.parseBotCommands body =
        ((WebhookHandler.splitOnChar '\n' body.toList).map
          String.mk).filterMap WebhookHandler.lineCommand) ∧
    WebhookHandler.parseBotCommands "@crypto-intel-bot status" =
      [⟨"status", []⟩] ∧
    (∀ (args : List String) (a m : Except String Unit) (p : String),
      WebhookHandler.executeBotCommand ⟨"status", args⟩ a m
          (Except.ok p) =
        ⟨[.getOverallStatus], "📊 **Current Status:**\n" ++ p⟩) ∧
    (∀ (args : List String) (m : Except String Unit)
        (st : Except String String),
      WebhookHandler.executeBotCommand ⟨"analyze", args⟩ (Except.ok ())
          m st =
        ⟨[.analyzeRepository],
         "✅ Gas analysis started for this repository."⟩) ∧
    (∀ (args : List String) (a : Except String Unit)
        (st : Except String String),
      WebhookHandler.executeBotCommand ⟨"monitor", args⟩ a
          (Except.ok ()) st =
        ⟨[.updateDeployments],
         "✅ Network monitoring activated for this repository."⟩) ∧
    (∀ (w : String) (args : List String) (a m : Except String Unit)
        (st : Except String String),
      w ≠ "analyze" → w ≠ "monitor" → w ≠ "status" →
      WebhookHandler.executeBotCommand ⟨w, args⟩ a m st =
        ⟨[], "❓ Unknown command: `" ++ w ++
             "`. Available commands: analyze, monitor, status"⟩) := by
  refine ⟨?_, by decide, fun args a m p => rfl, fun args m st => rfl,
    fun args a st => rfl, ?_⟩
  · intro body
    unfold WebhookHandler.parseBotCommands
    rw [parse_foldl_eq]
    simp
  · intro w args a m st h1 h2 h3
    unfold WebhookHandler.executeBotCommand
    dsimp only
    rw [if_neg h1, if_neg h2, if_neg h3]

/-- C9 witness: the unrecognized command word `help` calls no service and
gets the unknown-command reply. -/
theorem bot_command_grammar_witness :
    ("help" : String) ≠ "analyze" ∧
    WebhookHandler.executeBotCommand ⟨"help", []⟩ (Except.ok ())
        (Except.ok ()) (Except.ok "p") =
      ⟨[], "❓ Unknown command: `" ++ "help" ++
           "`. Available commands: analyze, monitor, status"⟩ :=
  ⟨by decide,
   bot_command_grammar.2.2.2.2.2 "help" [] (Except.ok ()) (Except.ok ())
     (Except.ok "p") (by decide) (by decide) (by decide)⟩

end CryptoIntelBot
